import Mathlib

/-!
Shallow embedding of the ranking and scheduling engine of the
Workload-Assessment-App planner screen
(`src/app/(tabs)/index/index.tsx`): due-date normalisation, effort
estimation, urgency/score model, ranker, bucket partitioner, schedule
builder and summary composer, together with theorems checking the
specification's claims about them.

Dates are modelled at the calendar-day level: a due date is an integer
day index (`Option Int`, `none` when the task has no due date) and
"today" is a day index, so the millisecond arithmetic of the source's
`parseDueDate`/`diffInDays` pair reduces to integer subtraction.
Scores use exact rationals in place of JS floating point.
-/

namespace WA

inductive Difficulty
  | easy
  | medium
  | hard
deriving DecidableEq

inductive Energy
  | deep
  | shallow
deriving DecidableEq

/-- The task record consumed by the planner.  `due_date` is the
calendar-day index of the stored due date, `none` when absent or
unparseable. -/
structure Task where
  id : Int
  title : String
  difficulty : Difficulty
  due_date : Option Int
  completed : Bool
deriving DecidableEq

/-- `parseDueDate` + `diffInDays` of the source, at day granularity:
the signed day offset from today to the due date, `none` when there is
no due date. -/
def diffInDays (due : Option Int) (today : Int) : Option Int :=
  due.map (fun d => d - today)

/-- JS `toLowerCase` on the title, as a character list (ASCII). -/
def lowerChars (s : String) : List Char :=
  s.toList.map Char.toLower

/-- A JS word character (`\w`): ASCII alphanumeric or underscore. -/
def isWordChar (c : Char) : Bool :=
  c.isAlphanum || c == '_'

/-- `title.toLowerCase().split(/\W+/).filter(Boolean)`: maximal runs of
word characters, empty fragments dropped.  `acc` holds the current run
reversed. -/
def tokenizeAux : List Char → List Char → List (List Char)
  | [], acc => if acc = [] then [] else [acc.reverse]
  | c :: rest, acc =>
    if isWordChar c then tokenizeAux rest (c :: acc)
    else if acc = [] then tokenizeAux rest []
    else acc.reverse :: tokenizeAux rest []

def tokensOf (title : String) : List (List Char) :=
  tokenizeAux (lowerChars title) []

/-- Does `text` start with `pat`? -/
def headMatch : List Char → List Char → Bool
  | [], _ => true
  | _ :: _, [] => false
  | p :: ps, t :: ts => p == t && headMatch ps ts

/-- JS `String.prototype.includes`: contiguous substring containment. -/
def hasSub (pat : List Char) : List Char → Bool
  | [] => headMatch pat []
  | t :: ts => headMatch pat (t :: ts) || hasSub pat ts

/-- The fixed keyword-bonus table of `estimateMinutes`. -/
def keywords : List (List Char × Nat) :=
  [("essay".toList, 30), ("project".toList, 40), ("research".toList, 25),
   ("study".toList, 15), ("quiz".toList, 10), ("exam".toList, 40),
   ("lab".toList, 25), ("report".toList, 25)]

/-- Base duration by difficulty: hard 90, medium 45, easy 20 minutes. -/
def baseOf : Difficulty → Nat
  | .hard => 90
  | .medium => 45
  | .easy => 20

/-- `estimateMinutes`: base duration for the difficulty plus the bonus
of every keyword occurring as a case-insensitive substring of the
title. -/
def estimateMinutes (t : Task) : Nat :=
  let title := lowerChars t.title
  baseOf t.difficulty +
    keywords.foldl (fun b kv => if hasSub kv.1 title then b + kv.2 else b) 0

/-- `computeEnergy`: hard and medium are deep, easy is shallow. -/
def computeEnergy (t : Task) : Energy :=
  match t.difficulty with
  | .hard => .deep
  | .medium => .deep
  | .easy => .shallow

/-- The urgency tier of the planner, from the signed day offset. -/
def urgency (daysUntil : Option Int) : Nat :=
  match daysUntil with
  | none => 1
  | some d =>
    if d < 0 then 9
    else if d = 0 then 8
    else if d ≤ 1 then 7
    else if d ≤ 3 then 6
    else if d ≤ 7 then 4
    else if d ≤ 14 then 3
    else 1

/-- Effort weight: hard 3, medium 2, easy 1. -/
def effort : Difficulty → Nat
  | .hard => 3
  | .medium => 2
  | .easy => 1

/-- All lowercase word tokens of all open task titles, with
multiplicity — the material of the keyword frequency map. -/
def allTokens (tasks : List Task) : List (List Char) :=
  (tasks.map (fun t => tokensOf t.title)).flatten

/-- The global frequency of token `w` across all open task titles. -/
def freq (tasks : List Task) (w : List Char) : Nat :=
  (allTokens tasks).count w

/-- `similarityBoost`: for each of the task's own tokens whose global
frequency `f` exceeds 1, add `min (f - 1) 2 * 0.4`. -/
def similarityBoost (tasks : List Task) (t : Task) : ℚ :=
  (tokensOf t.title).foldl
    (fun b w =>
      let f := freq tasks w
      if 1 < f then b + ((min (f - 1) 2 : Nat) : ℚ) * (2 / 5) else b) 0

/-- The due-date clause and effort clause of the `reason` string. -/
def reasonOf (daysUntil : Option Int) (diff : Difficulty) : String :=
  let dueClause : List String :=
    match daysUntil with
    | none => ["No due date"]
    | some d =>
      if d < 0 then ["Overdue by " ++ toString d.natAbs ++ "d"]
      else if d = 0 then ["Due today"]
      else if d = 1 then ["Due tomorrow"]
      else if d ≤ 7 then ["Due in " ++ toString d ++ "d"]
      else []
  let effortClause : String :=
    match diff with
    | .hard => "High effort"
    | .medium => "Medium effort"
    | .easy => "Quick win"
  String.intercalate (" · ") (dueClause ++ [effortClause])

/-- The derived, per-planning-pass record built for each open task. -/
structure PlannedTask where
  task : Task
  daysUntil : Option Int
  score : ℚ
  reason : String
  estMinutes : Nat
  energy : Energy
deriving DecidableEq

/-- One element of the `ranked` map: all derived fields of a task,
with `score = urgency + effort + similarityBoost`. -/
def mkPlanned (tasks : List Task) (today : Int) (t : Task) : PlannedTask :=
  let daysUntil := diffInDays t.due_date today
  { task := t
    daysUntil := daysUntil
    score := (urgency daysUntil : ℚ) + (effort t.difficulty : ℚ) +
      similarityBoost tasks t
    reason := reasonOf daysUntil t.difficulty
    estMinutes := estimateMinutes t
    energy := computeEnergy t }

/-- Insert into a score-descending list, after every element of score
strictly above `t.score` and before the rest — the placement a stable
descending sort gives an element relative to later input. -/
def insertDesc (t : PlannedTask) : List PlannedTask → List PlannedTask
  | [] => [t]
  | h :: rest => if t.score < h.score then h :: insertDesc t rest else t :: h :: rest

/-- The ranker: stable sort by score descending
(`.sort((a, b) => b.score - a.score)`). -/
def sortByScoreDesc : List PlannedTask → List PlannedTask
  | [] => []
  | t :: rest => insertDesc t (sortByScoreDesc rest)

/-- The master priority order: every open task planned, then sorted. -/
def rankedTasks (openT : List Task) (today : Int) : List PlannedTask :=
  sortByScoreDesc (openT.map (mkPlanned openT today))

/-- The `take` helper of the bucket partitioner: walk `ranked`, pick up
to `limit` tasks not yet claimed (id in `used`) that satisfy the
predicate, claiming each picked id.  Returns the picks and the grown
used set. -/
def take : List PlannedTask → Nat → (PlannedTask → Bool) → List Int →
    List PlannedTask × List Int
  | _, 0, _, used => ([], used)
  | [], _ + 1, _, used => ([], used)
  | t :: rest, n + 1, pred, used =>
    if t.task.id ∈ used then take rest (n + 1) pred used
    else if pred t then
      let r := take rest n pred (t.task.id :: used)
      (t :: r.1, r.2)
    else take rest (n + 1) pred used

/-- Membership predicate of the catch-up bucket: an overdue task. -/
def isOverdue (t : PlannedTask) : Bool :=
  match t.daysUntil with
  | some d => decide (d < 0)
  | none => false

/-- The four bucket passes in source order, sharing one used set:
critical (3, any), deep-focus (2, not easy), quick-wins (3, easy),
catch-up (2, overdue). -/
def buckets (ranked : List PlannedTask) :
    List PlannedTask × List PlannedTask × List PlannedTask × List PlannedTask :=
  let c := take ranked 3 (fun _ => true) []
  let d := take ranked 2 (fun t => !(t.task.difficulty == .easy)) c.2
  let q := take ranked 3 (fun t => t.task.difficulty == .easy) d.2
  let u := take ranked 2 isOverdue q.2
  (c.1, d.1, q.1, u.1)

/-- One slot of the time-boxed schedule. -/
structure Slot where
  title : String
  minutes : Nat
  id : Int
  energy : Energy
deriving DecidableEq

/-- The greedy schedule loop: at most 6 slots, slot length
`min estMinutes 90`; a slot exceeding the remaining budget stops the
loop unless it would be the first; the loop also stops once the budget
is exhausted. -/
def scheduleAux : List PlannedTask → Nat → Int → List Slot
  | [], _, _ => []
  | t :: rest, count, budget =>
    if 6 ≤ count then []
    else
      let slot := min t.estMinutes 90
      if (slot : Int) > budget ∧ 0 < count then []
      else
        { title := t.task.title, minutes := slot, id := t.task.id,
          energy := t.energy } ::
          (if budget - (slot : Int) ≤ 0 then []
           else scheduleAux rest (count + 1) (budget - (slot : Int)))

/-- The schedule built from the ranked order under the 180-minute
daily budget. -/
def buildSchedule (ranked : List PlannedTask) : List Slot :=
  scheduleAux ranked 0 180

def sumMinutes (s : List Slot) : Nat :=
  (s.map (fun x => x.minutes)).sum

/-- One rendered section of the plan. -/
structure PlanSection where
  title : String
  hint : String
  tasks : List PlannedTask
deriving DecidableEq

/-- The value `agentPlan` exposes to the UI. -/
structure PlanResult where
  summary : String
  prioritized : List PlannedTask
  sections : List PlanSection
  schedule : List Slot
  totalMinutes : Nat
deriving DecidableEq

/-- The summary composer over the three leading buckets. -/
def summaryOf (critical deepWork quickWins : List PlannedTask) : String :=
  let parts : List String :=
    (match critical.head? with
     | some c => ["Start with " ++ c.task.title ++ " (" ++ c.reason ++ ")."]
     | none => []) ++
    (match deepWork.head? with
     | some d => ["Protect one focus block for " ++ d.task.title ++ "."]
     | none => []) ++
    (if quickWins.isEmpty then []
     else ["Clear quick wins: " ++
       String.intercalate (", ") (quickWins.map (fun t => t.task.title)) ++ "."])
  String.intercalate (" ") parts

/-- The planning pass over the open tasks: empty-input branch, ranking,
bucket partitioning, schedule building and summary composition. -/
def agentPlan (openT : List Task) (today : Int) : PlanResult :=
  if openT.isEmpty then
    { summary := "Add a task to get a plan."
      prioritized := []
      sections := []
      schedule := []
      totalMinutes := 0 }
  else
    let ranked := rankedTasks openT today
    let b := buckets ranked
    let critical := b.1
    let deepWork := b.2.1
    let quickWins := b.2.2.1
    let catchUp := b.2.2.2
    let schedule := buildSchedule ranked
    { summary := summaryOf critical deepWork quickWins
      prioritized := ranked.take 5
      sections :=
        ([{ title := "Critical path", hint := "Highest weighted tasks",
            tasks := critical },
          { title := "Deep focus block", hint := "60–90 minutes",
            tasks := deepWork },
          { title := "Quick wins", hint := "Momentum boosters",
            tasks := quickWins },
          { title := "Catch up", hint := "Overdue or near-miss",
            tasks := catchUp }] : List PlanSection).filter
          (fun s => !s.tasks.isEmpty)
      schedule := schedule
      totalMinutes := sumMinutes schedule }

/-- The caller-side filter (`openTasks`) followed by the planning pass:
the plan as a function of the full task snapshot and today's date. -/
def planFromTasks (tasks : List Task) (today : Int) : PlanResult :=
  agentPlan (tasks.filter (fun t => !t.completed)) today

/-- The urgency tier exactly as the specification's table writes it,
row by row, to be compared with the source's `urgency`. -/
def urgencyTableSpec : Option Int → Nat
  | none => 1
  | some d =>
    if d < 0 then 9
    else if d = 0 then 8
    else if d = 1 then 7
    else if 2 ≤ d ∧ d ≤ 3 then 6
    else if 4 ≤ d ∧ d ≤ 7 then 4
    else if 8 ≤ d ∧ d ≤ 14 then 3
    else 1

/-- The similarity boost as the specification words it: the sum, over
the task's own tokens, of `min (f - 1) 2 * 0.4` for tokens of global
frequency `f > 1` and `0` otherwise. -/
def boostSpec (tasks : List Task) (t : Task) : ℚ :=
  ((tokensOf t.title).map
    (fun w =>
      if 1 < freq tasks w then ((min (freq tasks w - 1) 2 : Nat) : ℚ) * (2 / 5)
      else 0)).sum

/-- The keyword bonus as the specification words it: the sum of the
bonuses of the table keywords occurring in the lowercased title. -/
def bonusSpec (t : Task) : Nat :=
  (keywords.map
    (fun kv => if hasSub kv.1 (lowerChars t.title) then kv.2 else 0)).sum

/-- The ids of a list of planned tasks, in order. -/
def idsOf (l : List PlannedTask) : List Int :=
  l.map (fun t => t.task.id)

/-- The schedule slot a ranked task produces when admitted: its
estimated minutes capped at 90. -/
def slotOf (p : PlannedTask) : Slot :=
  { title := p.task.title, minutes := min p.estMinutes 90, id := p.task.id,
    energy := p.energy }

/-- Example scenario 1: a hard task due yesterday. -/
def c2task1 : Task :=
  { id := 1, title := "alpha", difficulty := .hard, due_date := some (-1),
    completed := false }

/-- Example scenario 1: an easy task with no due date. -/
def c2task2 : Task :=
  { id := 2, title := "beta", difficulty := .easy, due_date := none,
    completed := false }

/-- Example scenario 4: the i-th of ten tasks titled "project". -/
def tenTask (i : Nat) : Task :=
  { id := (i : Int), title := "project", difficulty := .easy, due_date := none,
    completed := false }

/-- Example scenario 4: ten open tasks all sharing the word "project". -/
def tenProjectTasks : List Task :=
  (List.range 10).map tenTask

/-- A single open hard task, used to instantiate universal claims. -/
def demoTask : Task :=
  { id := 7, title := "alpha", difficulty := .hard, due_date := some (-1),
    completed := false }

/-- A completed task, used to instantiate the filtering claims. -/
def demoDone : Task :=
  { id := 8, title := "beta", difficulty := .easy, due_date := none,
    completed := true }

/-- The schedule slot `demoTask` produces. -/
def demoSlot : Slot :=
  { title := "alpha", minutes := 90, id := 7, energy := .deep }

/-! ## Helper lemmas -/

/-- A left fold that conditionally accumulates is the sum of the mapped
contributions. -/
theorem foldl_add_of_eq {α β : Type _} [AddCommMonoid β] (f : β → α → β)
    (g : α → β) (hf : ∀ b w, f b w = b + g w) (l : List α) (init : β) :
    l.foldl f init = init + (l.map g).sum := by
  induction l generalizing init with
  | nil => simp
  | cons a l ih =>
    rw [List.foldl_cons, ih, hf, List.map_cons, List.sum_cons, add_assoc]

theorem mem_insertDesc {p t : PlannedTask} {l : List PlannedTask} :
    p ∈ insertDesc t l ↔ p = t ∨ p ∈ l := by
  induction l with
  | nil => simp [insertDesc]
  | cons h rest ih =>
    rw [insertDesc]
    split
    · simp only [List.mem_cons, ih]
      tauto
    · simp [List.mem_cons]

theorem mem_sortByScoreDesc {p : PlannedTask} {l : List PlannedTask} :
    p ∈ sortByScoreDesc l ↔ p ∈ l := by
  induction l with
  | nil => simp [sortByScoreDesc]
  | cons t rest ih => rw [sortByScoreDesc, mem_insertDesc]; simp [ih]

theorem insertDesc_ne_nil (t : PlannedTask) (l : List PlannedTask) :
    insertDesc t l ≠ [] := by
  cases l with
  | nil => simp [insertDesc]
  | cons h rest => rw [insertDesc]; split <;> simp

theorem sortByScoreDesc_ne_nil {l : List PlannedTask} (h : l ≠ []) :
    sortByScoreDesc l ≠ [] := by
  cases l with
  | nil => exact absurd rfl h
  | cons t rest => rw [sortByScoreDesc]; exact insertDesc_ne_nil _ _

theorem mem_rankedTasks {openT : List Task} {today : Int} {p : PlannedTask} :
    p ∈ rankedTasks openT today ↔ ∃ t ∈ openT, p = mkPlanned openT today t := by
  rw [rankedTasks, mem_sortByScoreDesc, List.mem_map]
  constructor
  · rintro ⟨t, ht, rfl⟩; exact ⟨t, ht, rfl⟩
  · rintro ⟨t, ht, rfl⟩; exact ⟨t, ht, rfl⟩

theorem rankedTasks_ne_nil {openT : List Task} {today : Int} (h : openT ≠ []) :
    rankedTasks openT today ≠ [] := by
  rw [rankedTasks]
  exact sortByScoreDesc_ne_nil (by simpa using h)

theorem take_length_le (r : List PlannedTask) (n : Nat)
    (pred : PlannedTask → Bool) (used : List Int) :
    (take r n pred used).1.length ≤ n := by
  induction r generalizing n used with
  | nil => cases n <;> simp [take]
  | cons t rest ih =>
    cases n with
    | zero => simp [take]
    | succ m =>
      rw [take]
      split
      · exact ih (m + 1) used
      · split
        · simpa using Nat.succ_le_succ (ih m (t.task.id :: used))
        · exact ih (m + 1) used

theorem take_subset {r : List PlannedTask} {n : Nat}
    {pred : PlannedTask → Bool} {used : List Int} :
    ∀ x ∈ (take r n pred used).1, x ∈ r := by
  induction r generalizing n used with
  | nil => cases n <;> simp [take]
  | cons t rest ih =>
    cases n with
    | zero => simp [take]
    | succ m =>
      rw [take]
      split
      · exact fun x hx => List.mem_cons_of_mem _ (ih x hx)
      · split
        · intro x hx
          rcases List.mem_cons.1 hx with h | h
          · exact h ▸ List.mem_cons_self _ _
          · exact List.mem_cons_of_mem _ (ih x h)
        · exact fun x hx => List.mem_cons_of_mem _ (ih x hx)

theorem take_used_eq (r : List PlannedTask) (n : Nat)
    (pred : PlannedTask → Bool) (used : List Int) :
    (take r n pred used).2 = (idsOf (take r n pred used).1).reverse ++ used := by
  induction r generalizing n used with
  | nil => cases n <;> simp [take, idsOf]
  | cons t rest ih =>
    cases n with
    | zero => simp [take, idsOf]
    | succ m =>
      rw [take]
      split
      · exact ih (m + 1) used
      · split
        · rw [ih m (t.task.id :: used)]
          simp [idsOf]
        · exact ih (m + 1) used

theorem take_ids_nodup (r : List PlannedTask) (n : Nat)
    (pred : PlannedTask → Bool) (used : List Int) (h : used.Nodup) :
    (idsOf (take r n pred used).1 ++ used).Nodup := by
  induction r generalizing n used with
  | nil => cases n <;> simpa [take, idsOf] using h
  | cons t rest ih =>
    cases n with
    | zero => simpa [take, idsOf] using h
    | succ m =>
      rw [take]
      split
      · exact ih (m + 1) used h
      · rename_i hmem
        split
        · have hnd : (t.task.id :: used).Nodup := List.nodup_cons.2 ⟨hmem, h⟩
          have := ih m (t.task.id :: used) hnd
          have hperm :
              List.Perm (idsOf (take rest m pred (t.task.id :: used)).1 ++
                t.task.id :: used)
                (t.task.id :: (idsOf (take rest m pred (t.task.id :: used)).1 ++
                  used)) :=
            List.perm_middle
          have := hperm.nodup this
          simpa [idsOf] using this
        · exact ih (m + 1) used h

/-- A reversed front block preserves freedom from duplication. -/
theorem nodup_rev_append {l1 l2 : List Int} (h : (l1 ++ l2).Nodup) :
    (l1.reverse ++ l2).Nodup :=
  (((List.reverse_perm l1).append_right l2).symm.nodup h)

/-- The four bucket passes written out as their `take` chain. -/
theorem buckets_eq (r : List PlannedTask) :
    buckets r =
      ((take r 3 (fun _ => true) []).1,
       (take r 2 (fun t => !(t.task.difficulty == .easy))
         (take r 3 (fun _ => true) []).2).1,
       (take r 3 (fun t => t.task.difficulty == .easy)
         (take r 2 (fun t => !(t.task.difficulty == .easy))
           (take r 3 (fun _ => true) []).2).2).1,
       (take r 2 isOverdue
         (take r 3 (fun t => t.task.difficulty == .easy)
           (take r 2 (fun t => !(t.task.difficulty == .easy))
             (take r 3 (fun _ => true) []).2).2).2).1) := rfl

/-- Four sequential `take` passes threading one used set pick pairwise
distinct ids. -/
theorem chain_nodup (r : List PlannedTask)
    (n1 n2 n3 n4 : Nat) (p1 p2 p3 p4 : PlannedTask → Bool)
    (c d q u : List PlannedTask × List Int)
    (hc : c = take r n1 p1 [])
    (hd : d = take r n2 p2 c.2)
    (hq : q = take r n3 p3 d.2)
    (hu : u = take r n4 p4 q.2) :
    (idsOf c.1 ++ (idsOf d.1 ++ (idsOf q.1 ++ idsOf u.1))).Nodup := by
  have hc2 : c.2.Nodup := by
    rw [hc, take_used_eq]
    exact nodup_rev_append (take_ids_nodup r n1 p1 [] List.nodup_nil)
  have hd2 : d.2.Nodup := by
    rw [hd, take_used_eq]
    exact nodup_rev_append (take_ids_nodup r n2 p2 c.2 hc2)
  have hq2 : q.2.Nodup := by
    rw [hq, take_used_eq]
    exact nodup_rev_append (take_ids_nodup r n3 p3 d.2 hd2)
  have hU : (idsOf u.1 ++ q.2).Nodup := by
    rw [hu]
    exact take_ids_nodup r n4 p4 q.2 hq2
  refine List.Perm.nodup (List.perm_iff_count.mpr fun a => ?_) hU
  rw [hq, take_used_eq, hd, take_used_eq, hc, take_used_eq]
  simp only [List.count_append, List.count_reverse, List.count_nil]
  ring

theorem sumMinutes_nil : sumMinutes [] = 0 := rfl

theorem sumMinutes_cons (s : Slot) (l : List Slot) :
    sumMinutes (s :: l) = s.minutes + sumMinutes l := by
  simp [sumMinutes]

/-- Once a slot has been admitted, the remaining loop never exceeds the
remaining budget. -/
theorem sumMinutes_scheduleAux_le (r : List PlannedTask) :
    ∀ (count : Nat) (budget : Int), 0 < count →
      (sumMinutes (scheduleAux r count budget) : Int) ≤ max budget 0 := by
  induction r with
  | nil =>
    intro count budget _
    simp [scheduleAux, sumMinutes_nil]
  | cons t rest ih =>
    intro count budget hcount
    rw [scheduleAux]
    split
    · simp [sumMinutes_nil]
    · dsimp only
      split
      · simp [sumMinutes_nil]
      · rename_i h6 hcond
        have hslot : ((min t.estMinutes 90 : Nat) : Int) ≤ budget := by
          by_contra hgt
          exact hcond ⟨lt_of_not_le (fun hle => hgt hle), hcount⟩
        rw [sumMinutes_cons]
        split
        · rename_i hstop
          rw [sumMinutes_nil]
          push_cast
          omega
        · rename_i hmore
          have hrec := ih (count + 1) (budget - ((min t.estMinutes 90 : Nat) : Int))
            (Nat.succ_pos _)
          have hmax : max (budget - ((min t.estMinutes 90 : Nat) : Int)) 0 =
              budget - ((min t.estMinutes 90 : Nat) : Int) :=
            max_eq_left (by omega)
          rw [hmax] at hrec
          push_cast
          push_cast at hrec
          omega

/-- The schedule total never exceeds the 180-minute daily budget. -/
theorem sumMinutes_buildSchedule_le (r : List PlannedTask) :
    sumMinutes (buildSchedule r) ≤ 180 := by
  cases r with
  | nil => simp [buildSchedule, scheduleAux, sumMinutes_nil]
  | cons t rest =>
    rw [buildSchedule, scheduleAux]
    rw [if_neg (by omega : ¬ (6 ≤ (0 : Nat)))]
    rw [if_neg (by simp : ¬ (((min t.estMinutes 90 : Nat) : Int) > 180 ∧ 0 < (0 : Nat)))]
    have hslot : min t.estMinutes 90 ≤ 90 := min_le_right _ _
    rw [sumMinutes_cons]
    split
    · rw [sumMinutes_nil]
      omega
    · have hrec := sumMinutes_scheduleAux_le rest 1
        (180 - ((min t.estMinutes 90 : Nat) : Int)) one_pos
      have hmax : max (180 - ((min t.estMinutes 90 : Nat) : Int)) 0 =
          180 - ((min t.estMinutes 90 : Nat) : Int) :=
        max_eq_left (by omega)
      rw [hmax] at hrec
      simp only [Nat.zero_add]
      omega

/-- A nonempty ranked list yields a nonempty schedule. -/
theorem buildSchedule_ne_nil {r : List PlannedTask} (h : r ≠ []) :
    buildSchedule r ≠ [] := by
  cases r with
  | nil => exact absurd rfl h
  | cons t rest =>
    rw [buildSchedule, scheduleAux]
    rw [if_neg (by omega : ¬ (6 ≤ (0 : Nat)))]
    rw [if_neg (by simp : ¬ (((min t.estMinutes 90 : Nat) : Int) > 180 ∧ 0 < (0 : Nat)))]
    exact List.cons_ne_nil _ _

/-- Every schedule slot is the capped image of some ranked task. -/
theorem mem_scheduleAux {r : List PlannedTask} :
    ∀ {count : Nat} {budget : Int} {s : Slot}, s ∈ scheduleAux r count budget →
      ∃ p ∈ r, s = slotOf p := by
  induction r with
  | nil =>
    intro count budget s hs
    simp [scheduleAux] at hs
  | cons t rest ih =>
    intro count budget s hs
    rw [scheduleAux] at hs
    split at hs
    · simp at hs
    · dsimp only at hs
      split at hs
      · simp at hs
      · rcases List.mem_cons.1 hs with h | h
        · exact ⟨t, List.mem_cons_self _ _, h⟩
        · split at h
          · simp at h
          · obtain ⟨p, hp, hs'⟩ := ih h
            exact ⟨p, List.mem_cons_of_mem _ hp, hs'⟩

/-- The planning pass on a nonempty open list, with each output field
written out. -/
theorem agentPlan_eq (openT : List Task) (today : Int) (h : openT ≠ []) :
    agentPlan openT today =
      { summary := summaryOf (buckets (rankedTasks openT today)).1
          (buckets (rankedTasks openT today)).2.1
          (buckets (rankedTasks openT today)).2.2.1
        prioritized := (rankedTasks openT today).take 5
        sections :=
          ([{ title := "Critical path", hint := "Highest weighted tasks",
              tasks := (buckets (rankedTasks openT today)).1 },
            { title := "Deep focus block", hint := "60–90 minutes",
              tasks := (buckets (rankedTasks openT today)).2.1 },
            { title := "Quick wins", hint := "Momentum boosters",
              tasks := (buckets (rankedTasks openT today)).2.2.1 },
            { title := "Catch up", hint := "Overdue or near-miss",
              tasks := (buckets (rankedTasks openT today)).2.2.2 }] :
            List PlanSection).filter (fun s => !s.tasks.isEmpty)
        schedule := buildSchedule (rankedTasks openT today)
        totalMinutes := sumMinutes (buildSchedule (rankedTasks openT today)) } := by
  unfold agentPlan
  rw [if_neg (by simpa [List.isEmpty_iff] using h)]

/-- The source's folded similarity boost equals the specification's
summed form. -/
theorem similarityBoost_eq_boostSpec (tasks : List Task) (t : Task) :
    similarityBoost tasks t = boostSpec tasks t := by
  have hf : ∀ (b : ℚ) (w : List Char),
      (let f := freq tasks w
       if 1 < f then b + ((min (f - 1) 2 : Nat) : ℚ) * (2 / 5) else b) =
      b + (if 1 < freq tasks w then
        ((min (freq tasks w - 1) 2 : Nat) : ℚ) * (2 / 5) else 0) := by
    intro b w
    dsimp only
    split <;> simp
  unfold similarityBoost boostSpec
  rw [foldl_add_of_eq _ _ hf, zero_add]

/-- The source's folded keyword bonus equals the specification's
summed form. -/
theorem estimateMinutes_eq (t : Task) :
    estimateMinutes t = baseOf t.difficulty + bonusSpec t := by
  have hf : ∀ (b : Nat) (kv : List Char × Nat),
      (if hasSub kv.1 (lowerChars t.title) then b + kv.2 else b) =
      b + (if hasSub kv.1 (lowerChars t.title) then kv.2 else 0) := by
    intro b kv
    split <;> simp
  unfold estimateMinutes bonusSpec
  dsimp only
  rw [foldl_add_of_eq _ _ hf, zero_add]

/-- Every bucket draws only from the ranked list. -/
theorem buckets_subset (r : List PlannedTask) :
    (∀ p ∈ (buckets r).1, p ∈ r) ∧ (∀ p ∈ (buckets r).2.1, p ∈ r) ∧
      (∀ p ∈ (buckets r).2.2.1, p ∈ r) ∧ (∀ p ∈ (buckets r).2.2.2, p ∈ r) := by
  rw [buckets_eq]
  exact ⟨fun p hp => take_subset p hp, fun p hp => take_subset p hp,
    fun p hp => take_subset p hp, fun p hp => take_subset p hp⟩

/-- Example scenario 1 ranks the overdue hard task first. -/
theorem c2ranked :
    rankedTasks [c2task1, c2task2] 0 =
      [mkPlanned [c2task1, c2task2] 0 c2task1,
       mkPlanned [c2task1, c2task2] 0 c2task2] := by
  have h : ¬ ((mkPlanned [c2task1, c2task2] 0 c2task1).score <
      (mkPlanned [c2task1, c2task2] 0 c2task2).score) := by
    show ¬ (((9 : Nat) : ℚ) + ((3 : Nat) : ℚ) + 0 <
      ((1 : Nat) : ℚ) + ((1 : Nat) : ℚ) + 0)
    norm_num
  show insertDesc (mkPlanned [c2task1, c2task2] 0 c2task1)
    [mkPlanned [c2task1, c2task2] 0 c2task2] = _
  rw [insertDesc, if_neg h]

/-! ## Claim theorems -/

/-- C1: for every open task entering the planner, the integer urgency
used in its score is exactly the function of `daysUntilDue` given by the
spec's table — the source's `urgency` coincides with the table
`urgencyTableSpec` on every day offset, and every planned task's score
uses that tabled urgency. -/
theorem urgency_table_spec :
    (∀ d : Option Int, urgency d = urgencyTableSpec d) ∧
    (∀ (tasks : List Task) (today : Int) (t : Task),
        (mkPlanned tasks today t).score =
          (urgencyTableSpec (diffInDays t.due_date today) : ℚ) +
            (effort t.difficulty : ℚ) + similarityBoost tasks t) := by
  have h : ∀ d : Option Int, urgency d = urgencyTableSpec d := by
    intro d
    cases d with
    | none => rfl
    | some d =>
      simp only [urgency, urgencyTableSpec]
      split_ifs <;> omega
  refine ⟨h, fun tasks today t => ?_⟩
  show (urgency (diffInDays t.due_date today) : ℚ) + (effort t.difficulty : ℚ) +
    similarityBoost tasks t = _
  rw [h]

/-- C2 counterexample: in scenario 1 (hard task due yesterday, easy task
with no due date) the claimed conjunction is false at its own input —
the catch-up bucket is empty, not `[1]`, because the critical pass has
already claimed task 1. -/
theorem scenario1_claim_false :
    ¬ (urgency (diffInDays c2task1.due_date 0) = 9 ∧
       effort c2task1.difficulty = 3 ∧
       urgency (diffInDays c2task2.due_date 0) = 1 ∧
       effort c2task2.difficulty = 1 ∧
       idsOf (rankedTasks [c2task1, c2task2] 0) = [1, 2] ∧
       idsOf (buckets (rankedTasks [c2task1, c2task2] 0)).1 = [1, 2] ∧
       idsOf (buckets (rankedTasks [c2task1, c2task2] 0)).2.2.2 = [1] ∧
       idsOf (buckets (rankedTasks [c2task1, c2task2] 0)).2.2.1 = []) := by
  rintro ⟨-, -, -, -, -, -, hcu, -⟩
  rw [c2ranked] at hcu
  exact absurd hcu (by decide)

/-- C2 amended: in scenario 1, task 1 gets urgency 9 and effort 3,
task 2 gets urgency 1 and effort 1, the ranked order is [1, 2], the
critical bucket is [1, 2], and the catch-up and quick-wins buckets are
both empty (both tasks were already claimed by the critical pass). -/
theorem scenario1_amended :
    urgency (diffInDays c2task1.due_date 0) = 9 ∧
    effort c2task1.difficulty = 3 ∧
    urgency (diffInDays c2task2.due_date 0) = 1 ∧
    effort c2task2.difficulty = 1 ∧
    idsOf (rankedTasks [c2task1, c2task2] 0) = [1, 2] ∧
    idsOf (buckets (rankedTasks [c2task1, c2task2] 0)).1 = [1, 2] ∧
    idsOf (buckets (rankedTasks [c2task1, c2task2] 0)).2.2.2 = [] ∧
    idsOf (buckets (rankedTasks [c2task1, c2task2] 0)).2.2.1 = [] := by
  refine ⟨by decide, by decide, by decide, by decide, ?_, ?_, ?_, ?_⟩ <;>
    rw [c2ranked] <;> decide

/-- C3: after the four bucket passes, every task id appears in at most
one bucket (and at most once in all buckets together). -/
theorem bucket_mutual_exclusion (openT : List Task) (today : Int) (i : Int) :
    (idsOf (buckets (rankedTasks openT today)).1).count i +
      (idsOf (buckets (rankedTasks openT today)).2.1).count i +
      (idsOf (buckets (rankedTasks openT today)).2.2.1).count i +
      (idsOf (buckets (rankedTasks openT today)).2.2.2).count i ≤ 1 := by
  have h := chain_nodup (rankedTasks openT today) 3 2 3 2
    (fun _ => true) (fun t => !(t.task.difficulty == .easy))
    (fun t => t.task.difficulty == .easy) isOverdue
    _ _ _ _ rfl rfl rfl rfl
  have hcount := List.nodup_iff_count_le_one.1 h i
  rw [buckets_eq]
  dsimp only
  simp only [List.count_append] at hcount
  omega

/-- C4: the schedule's total minutes stay within the 180-minute budget
(so the disjunction of the claim holds with its left side), and a first
task is always admitted: a nonempty open list gives a nonempty
schedule. -/
theorem schedule_budget_disjunct (openT : List Task) (today : Int) :
    (sumMinutes (agentPlan openT today).schedule ≤ 180 ∨
      (agentPlan openT today).schedule.length = 1) ∧
    (openT ≠ [] → (agentPlan openT today).schedule ≠ []) := by
  by_cases h : openT = []
  · subst h
    exact ⟨Or.inl (by show (0 : Nat) ≤ 180; exact Nat.zero_le _),
      fun hne => absurd rfl hne⟩
  · rw [agentPlan_eq openT today h]
    exact ⟨Or.inl (sumMinutes_buildSchedule_le _),
      fun _ => buildSchedule_ne_nil (rankedTasks_ne_nil h)⟩

theorem schedule_budget_disjunct_witness :
    (agentPlan [demoTask] 0).schedule ≠ [] :=
  (schedule_budget_disjunct [demoTask] 0).2 (by decide)

/-- C5: every planned task's score is urgency + effort + the similarity
boost in its specification form (`min (f - 1) 2 * 0.4` per own token of
global frequency `f > 1`, nothing otherwise), and in the ten-task
shared-"project" scenario each task's boost is `min (10-1) 2 * 0.4 =
0.8 = 4/5`. -/
theorem planner_score_formula :
    (∀ (tasks : List Task) (today : Int) (t : Task),
        (mkPlanned tasks today t).score =
          (urgency (diffInDays t.due_date today) : ℚ) +
            (effort t.difficulty : ℚ) + boostSpec tasks t) ∧
    (∀ t ∈ tenProjectTasks, similarityBoost tenProjectTasks t = 4 / 5) := by
  constructor
  · intro tasks today t
    show (urgency (diffInDays t.due_date today) : ℚ) + (effort t.difficulty : ℚ) +
      similarityBoost tasks t = _
    rw [similarityBoost_eq_boostSpec]
  · intro t ht
    obtain ⟨i, hi, rfl⟩ := List.mem_map.1 ht
    have he : similarityBoost tenProjectTasks (tenTask i) =
        0 + ((min 9 2 : Nat) : ℚ) * (2 / 5) := rfl
    rw [he, show (min 9 2 : Nat) = 2 from rfl]
    norm_num

theorem planner_score_formula_witness :
    similarityBoost tenProjectTasks (tenTask 0) = 4 / 5 :=
  planner_score_formula.2 (tenTask 0) (by decide)

/-- C6: estimated minutes are the difficulty base (hard 90, medium 45,
easy 20) plus the cumulative bonuses of every table keyword occurring
as a case-insensitive substring of the title, hence never below the
base. -/
theorem estimate_minutes_formula (t : Task) :
    estimateMinutes t = baseOf t.difficulty + bonusSpec t ∧
      baseOf t.difficulty ≤ estimateMinutes t := by
  have h := estimateMinutes_eq t
  exact ⟨h, h ▸ Nat.le_add_right _ _⟩

/-- C7: the empty open-task list yields exactly the fixed empty plan:
the "Add a task to get a plan." summary, empty prioritized list,
sections and schedule, and zero total minutes. -/
theorem empty_plan_result (today : Int) :
    agentPlan [] today =
      { summary := "Add a task to get a plan.", prioritized := [],
        sections := [], schedule := [], totalMinutes := 0 } := rfl

/-- C8: completed tasks never reach the prioritized list, any section's
bucket, or the schedule of the planning pass run over the full task
snapshot. -/
theorem completed_tasks_filtered (tasks : List Task) (today : Int) :
    (∀ p ∈ (planFromTasks tasks today).prioritized,
        p.task.completed = false) ∧
    (∀ sec ∈ (planFromTasks tasks today).sections, ∀ p ∈ sec.tasks,
        p.task.completed = false) ∧
    (∀ s ∈ (planFromTasks tasks today).schedule,
        ∃ t ∈ tasks, t.completed = false ∧ s.id = t.id ∧ s.title = t.title) := by
  have hopen : ∀ t ∈ tasks.filter (fun t => !t.completed),
      t ∈ tasks ∧ t.completed = false := by
    intro t ht
    have h := List.mem_filter.1 ht
    exact ⟨h.1, by simpa using h.2⟩
  rw [planFromTasks]
  by_cases h : tasks.filter (fun t => !t.completed) = []
  · rw [h]
    exact ⟨fun p hp => absurd hp (List.not_mem_nil _),
      fun sec hsec => absurd hsec (List.not_mem_nil _),
      fun s hs => absurd hs (List.not_mem_nil _)⟩
  · rw [agentPlan_eq _ _ h]
    have hrank : ∀ p ∈ rankedTasks (tasks.filter (fun t => !t.completed)) today,
        p.task.completed = false ∧ p.task ∈ tasks := by
      intro p hp
      obtain ⟨t, ht, rfl⟩ := mem_rankedTasks.1 hp
      exact ⟨(hopen t ht).2, (hopen t ht).1⟩
    have hb := buckets_subset
      (rankedTasks (tasks.filter (fun t => !t.completed)) today)
    refine ⟨?_, ?_, ?_⟩
    · intro p hp
      exact (hrank p ((List.take_sublist 5 _).subset hp)).1
    · intro sec hsec p hp
      have hsec1 := (List.mem_filter.1 hsec).1
      simp only [List.mem_cons, List.not_mem_nil, or_false] at hsec1
      rcases hsec1 with rfl | rfl | rfl | rfl
      · exact (hrank p (hb.1 p hp)).1
      · exact (hrank p (hb.2.1 p hp)).1
      · exact (hrank p (hb.2.2.1 p hp)).1
      · exact (hrank p (hb.2.2.2 p hp)).1
    · intro s hs
      obtain ⟨p, hp, rfl⟩ := mem_scheduleAux hs
      obtain ⟨hc, hmem⟩ := hrank p hp
      exact ⟨p.task, hmem, hc, rfl, rfl⟩

theorem completed_tasks_filtered_witness :
    ∃ t ∈ [demoTask, demoDone], t.completed = false ∧ demoSlot.id = t.id ∧
      demoSlot.title = t.title :=
  (completed_tasks_filtered [demoTask, demoDone] 0).2.2 demoSlot (by decide)

/-- C9: after partitioning, the buckets respect their capacities:
critical at most 3, deep-focus at most 2, quick-wins at most 3,
catch-up at most 2. -/
theorem bucket_capacity_bounds (openT : List Task) (today : Int) :
    (buckets (rankedTasks openT today)).1.length ≤ 3 ∧
      (buckets (rankedTasks openT today)).2.1.length ≤ 2 ∧
      (buckets (rankedTasks openT today)).2.2.1.length ≤ 3 ∧
      (buckets (rankedTasks openT today)).2.2.2.length ≤ 2 := by
  rw [buckets_eq]
  exact ⟨take_length_le _ _ _ _, take_length_le _ _ _ _, take_length_le _ _ _ _,
    take_length_le _ _ _ _⟩

/-- C10: every schedule slot is `slotOf` of a ranked task, so its
minutes equal `min estimatedMinutes 90` and never exceed 90; the total
never exceeds 180 unconditionally, and the single-oversized-slot
exception (one slot whose minutes exceed the whole 180 budget) is
unreachable. -/
theorem slot_cap_no_oversize (openT : List Task) (today : Int) :
    (∀ s ∈ (agentPlan openT today).schedule,
        ∃ p ∈ rankedTasks openT today, s = slotOf p) ∧
    (∀ s ∈ (agentPlan openT today).schedule, s.minutes ≤ 90) ∧
    sumMinutes (agentPlan openT today).schedule ≤ 180 ∧
    ¬ ((agentPlan openT today).schedule.length = 1 ∧
        180 < sumMinutes (agentPlan openT today).schedule) := by
  by_cases h : openT = []
  · subst h
    refine ⟨fun s hs => absurd hs (List.not_mem_nil _),
      fun s hs => absurd hs (List.not_mem_nil _),
      by show (0 : Nat) ≤ 180; exact Nat.zero_le _, ?_⟩
    rintro ⟨h1, -⟩
    exact absurd h1 (by show ¬ (0 = 1); omega)
  · rw [agentPlan_eq openT today h]
    dsimp only
    refine ⟨fun s hs => mem_scheduleAux hs, ?_,
      sumMinutes_buildSchedule_le _, ?_⟩
    · intro s hs
      obtain ⟨p, hp, rfl⟩ := mem_scheduleAux hs
      exact min_le_right _ _
    · rintro ⟨-, hgt⟩
      exact absurd (sumMinutes_buildSchedule_le (rankedTasks openT today))
        (by omega)

theorem slot_cap_no_oversize_witness :
    ∃ p ∈ rankedTasks [demoTask] 0, demoSlot = slotOf p :=
  (slot_cap_no_oversize [demoTask] 0).1 demoSlot (by decide)

end WA
